import Mathlib

/-!
# Verification of the stream scheduling engine

Shallow embedding of the scheduling core of the dashboard backend:
time-string parsing (`parseTimeString`), the schedule conflict validator
(`validateScheduleConflicts`), the execution planner
(`calculateNextExecution`), and the scheduler engine's arm / fire
operations (`scheduleStream`, `unscheduleStream`, `executeScheduledStart`,
`executeScheduledStop`).

Modelling conventions:
* Instants and timestamps are integers counting minutes since the Unix
  epoch (the source uses milliseconds; every instant the engine constructs
  lies on a whole minute, and for a strict comparison `candidate > now`
  with a whole-minute candidate only the floor of `now` in minutes
  matters, so minute granularity is faithful).
* The host timezone of the JavaScript runtime is taken to be UTC, so the
  local-time calendar methods (`setDate`, `setHours`, `getDay`) act on the
  UTC reading of a timestamp.  Day arithmetic on timestamps is floor
  division by 1440; the Unix epoch fell on a Thursday, so the weekday
  (0 = Sunday) of day `n` is `(n + 4) % 7`.
* JavaScript `NaN` produced by `Number(...)` on non-numeric strings is
  modelled by `none : Option Int`; every numeric comparison against `NaN`
  is false, which the `js*` comparison helpers reproduce.
* The validator pushes human-readable strings; here each push is recorded
  as a structured `Conflict` value carrying the schedules named by the
  string (`renderConflict` reproduces the exact message text).
-/

/-- Models JavaScript `Number(str)` restricted to the string shapes that
`parseTimeString` can feed it: the empty string evaluates to `0`, a string
of decimal digits to its value, and anything else to `NaN`, encoded as
`none`.  (Signed, fractional, hexadecimal or whitespace-padded numerals,
which `Number` would also accept, do not occur in any statement below.) -/
def jsNumber (str : String) : Option Int :=
  if str = "" then some 0
  else if str.data.all (fun c => c.isDigit) then
    some (str.data.foldl (fun acc c => acc * 10 + ((c.toNat : Int) - 48)) 0)
  else none

/-- Models `String.prototype.split` with a one-character separator,
working on the character list of the string: `"" ↦ [""]`, separators at
either end or adjacent produce empty parts, exactly as in JavaScript. -/
def splitChars (sep : Char) : List Char → List (List Char)
  | [] => [[]]
  | c :: cs =>
    if c = sep then [] :: splitChars sep cs
    else
      match splitChars sep cs with
      | [] => [[c]]
      | p :: ps => (c :: p) :: ps

/-- Embeds the helper `parseTimeString` (scheduler handler, bottom of the
file): `timeStr.split(':')`, destructure the first two parts through
`Number`, return `hours * 60 + minutes`.  A missing second part is
`Number(undefined) = NaN`.  `none` is the `NaN` outcome. -/
def parseTimeString (timeStr : String) : Option Int :=
  let parts := (splitChars ':' timeStr.data).map String.mk
  let hours := jsNumber (parts.headD "")
  let minutes :=
    match parts[1]? with
    | some p => jsNumber p
    | none => none
  match hours, minutes with
  | some h, some m => some (h * 60 + m)
  | _, _ => none

/-- The digit character class `[0-9]` of the schema's time regex. -/
def digitChars : List Char := ['0', '1', '2', '3', '4', '5', '6', '7', '8', '9']

/-- The character class `[0-5]` of the minute tens digit. -/
def minuteTensChars : List Char := ['0', '1', '2', '3', '4', '5']

/-- The character class `[0-1]` of the optional leading hour digit. -/
def hourLeadChars : List Char := ['0', '1']

/-- The character class `[0-3]` of the second hour digit after `2`. -/
def hourAfterTwoChars : List Char := ['0', '1', '2', '3']

/-- Embeds the time-format regex `^([0-1]?[0-9]|2[0-3]):[0-5][0-9]$` used
by `createScheduleInputSchema` for `start_time` and `end_time`. -/
def timeRegexMatch (s : String) : Bool :=
  match s.data with
  | [h, c, m1, m2] =>
      (c == ':') && digitChars.contains h &&
        minuteTensChars.contains m1 && digitChars.contains m2
  | [h1, h2, c, m1, m2] =>
      (c == ':') &&
        ((hourLeadChars.contains h1 && digitChars.contains h2) ||
          ((h1 == '2') && hourAfterTwoChars.contains h2)) &&
        minuteTensChars.contains m1 && digitChars.contains m2
  | _ => false

/-- Numeric value of a digit character. -/
def digitVal (c : Char) : Int := (c.toNat : Int) - 48

/-- Modelled from the spec: the reference reading of an `"HH:MM"` or
`"H:MM"` wall-clock string as minutes since midnight (`toMinutesSinceMidnight`'s
documented meaning).  Used only to compare `parseTimeString` against the
spec's words; it is not part of the source. -/
def specMinutesOfTime (s : String) : Option Int :=
  match s.data with
  | [h, _, m1, m2] => some (60 * digitVal h + (10 * digitVal m1 + digitVal m2))
  | [h1, h2, _, m1, m2] =>
      some (60 * (10 * digitVal h1 + digitVal h2) + (10 * digitVal m1 + digitVal m2))
  | _ => none

/-- Decidable check bundling what the parser theorems need of one concrete
time string: the code's parser and the spec's reading agree and the value
lies in `[0, 1439]`. -/
def timeParseAgrees (s : String) : Bool :=
  match parseTimeString s, specMinutesOfTime s with
  | some v, some w => (v == w) && decide (0 ≤ v) && decide (v ≤ 1439)
  | _, _ => false

/-- JavaScript's abstract relational comparison `a < b` on strings:
lexicographic comparison by code unit (these strings are ASCII), on the
character lists. -/
def jsStrLtChars : List Char → List Char → Bool
  | [], [] => false
  | [], _ :: _ => true
  | _ :: _, [] => false
  | c :: cs, d :: ds =>
    if c < d then true
    else if d < c then false
    else jsStrLtChars cs ds

/-- JavaScript `a < b` on strings.  `a >= b` is its negation. -/
def jsStrLt (a b : String) : Bool := jsStrLtChars a.data b.data

/-- The `Schedule` entity (`scheduleSchema` in the shared schema module),
restricted to the fields the scheduling core reads.  `execution_date` is
the timestamp of the one-time date in minutes since epoch, `none` when
null.  (`video_start_timestamp`, `created_at`, `updated_at` are never read
by the core and are omitted.) -/
structure Schedule where
  id : Int
  name : String
  obs_instance_id : Int
  start_time : String
  end_time : String
  days_of_week : List Int
  is_active : Bool
  is_one_time : Bool
  execution_date : Option Int
deriving DecidableEq

/-- One entry pushed onto the `conflicts` array by
`validateScheduleConflicts`, recorded structurally: which kind of message
was pushed and which schedules it names (`renderConflict` recovers the
exact string). -/
inductive Conflict where
  | invalidRange (s : Schedule)
  | overlap (a b : Schedule)
  | insufficientBreak (a b : Schedule)
deriving DecidableEq

/-- The exact message text the source pushes for each conflict. -/
def renderConflict : Conflict → String
  | Conflict.invalidRange s =>
      "Schedule \"" ++ s.name ++ "\" has invalid time range: " ++
        s.start_time ++ " to " ++ s.end_time
  | Conflict.overlap a b =>
      "Schedules \"" ++ a.name ++ "\" and \"" ++ b.name ++
        "\" have overlapping times on the same OBS instance"
  | Conflict.insufficientBreak a b =>
      "Insufficient break time between \"" ++ a.name ++ "\" and \"" ++
        b.name ++ "\" (minimum 5 minutes required)"

/-- JavaScript `<` on two numbers, either of which may be `NaN` (`none`):
any comparison against `NaN` is false. -/
def jsLt : Option Int → Option Int → Bool
  | some a, some b => a < b
  | _, _ => false

/-- JavaScript `<=` with `NaN` as `none`. -/
def jsLe : Option Int → Option Int → Bool
  | some a, some b => a ≤ b
  | _, _ => false

/-- JavaScript `>` with `NaN` as `none` (`a > b` is `b < a` for numbers). -/
def jsGt : Option Int → Option Int → Bool
  | some a, some b => b < a
  | _, _ => false

/-- Addition of a constant, propagating `NaN`. -/
def jsAdd : Option Int → Int → Option Int
  | some a, k => some (a + k)
  | none, _ => none

/-- Subtraction, propagating `NaN`. -/
def jsSub : Option Int → Option Int → Option Int
  | some a, some b => some (a - b)
  | _, _ => none

/-- The overnight normalisation of the validator: `if (end <= start)
endAdjusted = end + 24 * 60`, on possibly-`NaN` minute values. -/
def adjEndO (endM startM : Option Int) : Option Int :=
  if jsLe endM startM then jsAdd endM 1440 else endM

/-- The same normalisation on definite minute values; used to state the
pairwise theorems. -/
def adjustEnd (startM endM : Int) : Int :=
  if endM ≤ startM then endM + 1440 else endM

/-- `currentDays.some(day => otherDays.includes(day))`. -/
def hasOverlappingDays (a b : Schedule) : Bool :=
  a.days_of_week.any (fun d => b.days_of_week.contains d)

/-- The guard under which the pairwise checks run for a pair: same OBS
instance (the `continue` on differing ids) and overlapping weekday sets. -/
def sameTargetSharedDays (a b : Schedule) : Bool :=
  (a.obs_instance_id == b.obs_instance_id) && hasOverlappingDays a b

/-- The overlap test `currentStart < otherEndAdjusted && currentEndAdjusted
> otherStart` of the validator, with `current := a`, `other := b`. -/
def overlapCondB (a b : Schedule) : Bool :=
  jsLt (parseTimeString a.start_time) (adjEndO (parseTimeString b.end_time) (parseTimeString b.start_time)) &&
    jsGt (adjEndO (parseTimeString a.end_time) (parseTimeString a.start_time)) (parseTimeString b.start_time)

/-- The break-time test in the direction "`a` ends at or before `b` starts
with a gap under 5 minutes": `currentEndAdjusted <= otherStart &&
(otherStart - currentEndAdjusted) < minBreakTime`. -/
def breakCondB (a b : Schedule) : Bool :=
  jsLe (adjEndO (parseTimeString a.end_time) (parseTimeString a.start_time)) (parseTimeString b.start_time) &&
    jsLt (jsSub (parseTimeString b.start_time) (adjEndO (parseTimeString a.end_time) (parseTimeString a.start_time))) (some 5)

/-- Both guards that gate an overlap push for an ordered pair. -/
def overlapEmit (a b : Schedule) : Bool :=
  sameTargetSharedDays a b && overlapCondB a b

/-- Both guards that gate a break-time push for the ordered pair
(`a` ends, `b` starts). -/
def breakEmit (a b : Schedule) : Bool :=
  sameTargetSharedDays a b && breakCondB a b

/-- The conflicts the inner loop body of `validateScheduleConflicts`
pushes for the ordered pair (`current`, `other`): nothing when the targets
differ (`continue`) or the weekday sets are disjoint; otherwise the
overlap conflict and the two directed break-time conflicts, in push
order. -/
def conflictsFor (current other : Schedule) : List Conflict :=
  if sameTargetSharedDays current other then
    (if overlapCondB current other then [Conflict.overlap current other] else []) ++
      (if breakCondB current other then [Conflict.insufficientBreak current other] else []) ++
        (if breakCondB other current then [Conflict.insufficientBreak other current] else [])
  else []

/-- The inner `for (let j = i + 1; ...)` loop: the pair conflicts of
`current` against each later schedule, concatenated in order. -/
def pairConflicts (current : Schedule) : List Schedule → List Conflict
  | [] => []
  | other :: rest => conflictsFor current other ++ pairConflicts current rest

/-- The outer `for (let i = 0; ...)` loop over the sorted schedule list:
the per-schedule invalid-range check (`start_time >= end_time`, a
JavaScript *string* comparison, i.e. not (`start < end`) lexicographically),
then the pairwise conflicts against all later schedules. -/
def validateLoop : List Schedule → List Conflict
  | [] => []
  | current :: rest =>
      (if jsStrLt current.start_time current.end_time = true then []
        else [Conflict.invalidRange current]) ++
        (pairConflicts current rest ++ validateLoop rest)

/-- The sort comparator of `validateScheduleConflicts`: ascending
`obs_instance_id`, ties broken by `start_time.localeCompare` (codepoint
order on these ASCII strings).  `schedLE a b` says the comparator puts `a`
no later than `b` (`cmp(a, b) <= 0`). -/
def schedLE (a b : Schedule) : Prop :=
  a.obs_instance_id < b.obs_instance_id ∨
    (a.obs_instance_id = b.obs_instance_id ∧ jsStrLt b.start_time a.start_time = false)

instance schedLEDec : DecidableRel schedLE := fun a b => by
  unfold schedLE
  infer_instance

/-- The sort of the input list (`[...schedules].sort(...)`); only that it
permutes the input matters to the theorems below. -/
def sortSchedules (schedules : List Schedule) : List Schedule :=
  List.insertionSort schedLE schedules

/-- Embeds `validateScheduleConflicts`: sort, then the two nested loops.
The source returns `conflicts.map` rendered as strings;
`(validateScheduleConflicts l).map renderConflict` is that output. -/
def validateScheduleConflicts (schedules : List Schedule) : List Conflict :=
  validateLoop (sortSchedules schedules)

/-- The fixed IST offset `5.5 * 60 * 60 * 1000` ms, in minutes. -/
def istOffset : Int := 330

/-- The civil IST day index of an instant: `new Date(now + istOffset)`
truncated to its (host-UTC) calendar day. -/
def dayIST (now : Int) : Int := (now + istOffset) / 1440

/-- Weekday (0 = Sunday) of epoch-day `n`; the epoch fell on a Thursday. -/
def weekdayOfDay (day : Int) : Int := (day + 4) % 7

/-- The candidate start instant `daysAhead` civil days after `now`: the
IST civil day of `now` plus `d` days, at `t` minutes past midnight,
converted back to UTC (`checkDate.setDate(...); checkDate.setHours(h, m,
0, 0)` then `- istOffset`). -/
def recurringCandidate (now t : Int) (d : Nat) : Int :=
  (dayIST now + d) * 1440 + t - istOffset

/-- The loop-body hit test of `calculateNextExecution`'s recurring scan:
`daysOfWeek.includes(checkDate.getDay())` — the weekday is read *after*
`setHours`, so a `t ≥ 1440` would roll the day over, hence the inner
division — and `executionUTC > now`. -/
def searchHit (s : Schedule) (now t : Int) (d : Nat) : Prop :=
  weekdayOfDay (((dayIST now + d) * 1440 + t) / 1440) ∈ s.days_of_week ∧
    now < recurringCandidate now t d

instance searchHitDec (s : Schedule) (now t : Int) (d : Nat) :
    Decidable (searchHit s now t d) := by
  unfold searchHit
  infer_instance

/-- The `for (let daysAhead = 0; daysAhead <= 14; ...)` scan, with the
day counter `d` and the remaining iteration count as fuel. -/
def searchDays (s : Schedule) (now t : Int) : Nat → Nat → Option Int
  | _, 0 => none
  | d, fuel + 1 =>
    if searchHit s now t d then some (recurringCandidate now t d)
    else searchDays s now t (d + 1) fuel

/-- The instant a one-time schedule fires at: the IST civil day of
`execution_date` at `start_time`, converted back to UTC. -/
def oneTimeInstant (d t : Int) : Int :=
  ((d + istOffset) / 1440) * 1440 + t - istOffset

/-- Embeds `calculateNextExecution` with the clock `now` injected (the
source reads `new Date()`).  One-time path when `is_one_time` and
`execution_date` is non-null; otherwise the recurring 15-iteration scan.
A `NaN` from parsing `start_time` makes every date invalid and every
comparison false, so both paths return `null`: the `none` branches. -/
def calculateNextExecution (s : Schedule) (now : Int) : Option Int :=
  match s.is_one_time, s.execution_date with
  | true, some d =>
    match parseTimeString s.start_time with
    | some t =>
      if now < oneTimeInstant d t then some (oneTimeInstant d t) else none
    | none => none
  | _, _ =>
    if s.days_of_week = [] then none
    else
      match parseTimeString s.start_time with
      | some t => searchDays s now t 0 15
      | none => none

/-- The in-memory `activeSchedules: Map<number, Timer[]>`, each timer
recorded by the absolute instant it is set to fire at. -/
abbrev TimerMap := List (Int × List Int)

/-- The `{ success, error? }` result of `scheduleStream`. -/
structure SchedResult where
  success : Bool
  error : Option String
deriving DecidableEq

/-- `Map.prototype.delete`. -/
def mapDelete (st : TimerMap) (id : Int) : TimerMap :=
  st.filter (fun p => p.1 != id)

/-- `Map.prototype.set`: replace in place when the key exists, else append. -/
def mapSet (st : TimerMap) (id : Int) (v : List Int) : TimerMap :=
  if st.any (fun p => p.1 == id) then
    st.map (fun p => if p.1 == id then (id, v) else p)
  else st ++ [(id, v)]

/-- `Map.prototype.get` restricted to presence and value. -/
def mapLookup (st : TimerMap) (id : Int) : Option (List Int) :=
  (st.find? (fun p => p.1 == id)).map (fun p => p.2)

/-- Embeds `unscheduleStream`: clear and delete the timers of one id. -/
def unscheduleStream (st : TimerMap) (scheduleId : Int) : TimerMap :=
  mapDelete st scheduleId

/-- Embeds `scheduleStream` (the engine's `arm`): delete any existing
timer pair, plan via `calculateNextExecution`, fail when no instant or a
past instant comes back; otherwise compute the stop instant from
`end_time` on the start's (host-UTC) day with the next-day adjustment,
arm the start timer and — only when still in the future — the stop timer,
and store the pair.  When `end_time` parses to `NaN` the stop date is
invalid: the stop timer is skipped, the map entry (already set) survives,
and the `toISOString()` logging call throws into the `catch`, so the
result is the internal-error failure. -/
def scheduleStream (st : TimerMap) (schedule : Schedule) (now : Int) :
    TimerMap × SchedResult :=
  let st1 := unscheduleStream st schedule.id
  match calculateNextExecution schedule now with
  | none => (st1, { success := false, error := some "No valid next execution time found" })
  | some nextExecution =>
    if nextExecution - now ≤ 0 then
      (st1, { success := false, error := some "Calculated execution time is in the past" })
    else
      match parseTimeString schedule.end_time with
      | none =>
        (mapSet st1 schedule.id [nextExecution],
          { success := false, error := some "Internal scheduling error" })
      | some endMinutes =>
        let endTime0 := (nextExecution / 1440) * 1440 + endMinutes
        let endTime := if endTime0 ≤ nextExecution then endTime0 + 1440 else endTime0
        let timers := if 0 < endTime - now then [nextExecution, endTime] else [nextExecution]
        (mapSet st1 schedule.id timers, { success := true, error := none })

/-- The OBS-instance row, restricted to the fields the fire handlers
touch. -/
structure ObsInstance where
  id : Int
  name : String
  status : String
  is_streaming : Bool
deriving DecidableEq

/-- A `stream_events` row as inserted by the fire handlers.  The source
appends an ISO timestamp rendering to the notes; the notes prefix is kept
and the timestamp rendering is not modelled. -/
structure StreamEvent where
  obs_instance_id : Int
  schedule_id : Option Int
  event_type : String
  notes : String
deriving DecidableEq

/-- A `notifications` row as inserted by the fire handlers. -/
structure NotificationRec where
  schedule_id : Int
  notification_type : String
  message : String
deriving DecidableEq

/-- The persistence collaborator's visible state. -/
structure Db where
  schedules : List Schedule
  obsInstances : List ObsInstance
  streamEvents : List StreamEvent
  notifications : List NotificationRec
deriving DecidableEq

/-- The `select ... innerJoin ... where schedules.id = scheduleId` of the
fire handlers, under unique ids: the schedule row joined with its OBS
instance, `none` when either is missing. -/
def joinScheduleObs (db : Db) (sid : Int) : Option (Schedule × ObsInstance) :=
  match db.schedules.find? (fun s => s.id == sid) with
  | none => none
  | some sch =>
    match db.obsInstances.find? (fun o => o.id == sch.obs_instance_id) with
    | none => none
    | some obs => some (sch, obs)

/-- The `update obs_instances set is_streaming, status = 'connected'` of
the fire handlers. -/
def setObsStreaming (db : Db) (oid : Int) (streaming : Bool) : Db :=
  { db with obsInstances := db.obsInstances.map (fun o =>
      if o.id == oid then { o with is_streaming := streaming, status := "connected" } else o) }

/-- Embeds `executeScheduledStart` (the engine's `onStartFire`): look up
schedule and target (abort silently when the join is empty), mark the
target streaming, log the start event, create the start notification, and
— only for recurring schedules — re-invoke `scheduleStream`. -/
def executeScheduledStart (db : Db) (st : TimerMap) (scheduleId : Int) (now : Int) :
    Db × TimerMap :=
  match joinScheduleObs db scheduleId with
  | none => (db, st)
  | some (schedule, obsInstance) =>
    let db1 := setObsStreaming db obsInstance.id true
    let db2 := { db1 with streamEvents := db1.streamEvents ++
      [({ obs_instance_id := obsInstance.id, schedule_id := some scheduleId,
          event_type := "stream_start", notes := "Scheduled stream started at" } : StreamEvent)] }
    let db3 := { db2 with notifications := db2.notifications ++
      [({ schedule_id := scheduleId, notification_type := "stream_start",
          message := "Stream \"" ++ schedule.name ++ "\" started on " ++ obsInstance.name } : NotificationRec)] }
    if schedule.is_one_time then (db3, st)
    else (db3, (scheduleStream st schedule now).1)

/-- Embeds `executeScheduledStop` (the engine's `onStopFire`): look up
schedule and target, mark the target not streaming, log the stop event,
create the stop notification.  It never touches the timer map. -/
def executeScheduledStop (db : Db) (st : TimerMap) (scheduleId : Int) (_now : Int) :
    Db × TimerMap :=
  match joinScheduleObs db scheduleId with
  | none => (db, st)
  | some (schedule, obsInstance) =>
    let db1 := setObsStreaming db obsInstance.id false
    let db2 := { db1 with streamEvents := db1.streamEvents ++
      [({ obs_instance_id := obsInstance.id, schedule_id := some scheduleId,
          event_type := "stream_stop", notes := "Scheduled stream stopped at" } : StreamEvent)] }
    let db3 := { db2 with notifications := db2.notifications ++
      [({ schedule_id := scheduleId, notification_type := "stream_stop",
          message := "Stream \"" ++ schedule.name ++ "\" stopped on " ++ obsInstance.name } : NotificationRec)] }
    (db3, st)

/-- Occurrence counter used by the conflict-multiset theorems. -/
def countOcc {α : Type} [DecidableEq α] (a : α) : List α → Nat
  | [] => 0
  | x :: xs => (if x = a then 1 else 0) + countOcc a xs

/-- An overnight schedule, `15:00` to `14:00` the next civil day. -/
def overnightSchedule : Schedule :=
  { id := 1, name := "Overnight", obs_instance_id := 1,
    start_time := "15:00", end_time := "14:00", days_of_week := [1],
    is_active := true, is_one_time := false, execution_date := none }

/-- A forward window written with a single-digit hour, `9:00` to `10:00`:
numerically forward, lexicographically backwards. -/
def lexSchedule : Schedule :=
  { id := 2, name := "Morning", obs_instance_id := 1,
    start_time := "9:00", end_time := "10:00", days_of_week := [1],
    is_active := true, is_one_time := false, execution_date := none }

/-- `09:00`–`11:00` on Mondays, target 1 (spec §8 overlap example). -/
def overlapSchedA : Schedule :=
  { id := 3, name := "ShowA", obs_instance_id := 1,
    start_time := "09:00", end_time := "11:00", days_of_week := [1],
    is_active := true, is_one_time := false, execution_date := none }

/-- `10:30`–`12:00` on Mondays, target 1 (spec §8 overlap example). -/
def overlapSchedB : Schedule :=
  { id := 4, name := "ShowB", obs_instance_id := 1,
    start_time := "10:30", end_time := "12:00", days_of_week := [1],
    is_active := true, is_one_time := false, execution_date := none }

/-- `09:00`–`10:00` on Mondays, target 1 (spec §8 break example). -/
def breakSchedA : Schedule :=
  { id := 5, name := "Early", obs_instance_id := 1,
    start_time := "09:00", end_time := "10:00", days_of_week := [1],
    is_active := true, is_one_time := false, execution_date := none }

/-- `10:02`–`11:00` on Mondays, target 1 (spec §8 break example: gap 2 min). -/
def breakSchedB : Schedule :=
  { id := 6, name := "Late", obs_instance_id := 1,
    start_time := "10:02", end_time := "11:00", days_of_week := [1],
    is_active := true, is_one_time := false, execution_date := none }

/-- A recurring schedule with an empty weekday set: can never execute. -/
def emptyDaysSchedule : Schedule :=
  { id := 7, name := "Never", obs_instance_id := 2,
    start_time := "09:00", end_time := "10:00", days_of_week := [],
    is_active := true, is_one_time := false, execution_date := none }

/-- The spec §8 planner example: recurring on Mon/Wed/Fri at `09:00`. -/
def mwfSchedule : Schedule :=
  { id := 8, name := "MWF", obs_instance_id := 1,
    start_time := "09:00", end_time := "10:00", days_of_week := [1, 3, 5],
    is_active := true, is_one_time := false, execution_date := none }

/-- A one-time schedule dated at the epoch (midnight UTC, 05:30 IST),
starting `09:00` IST. -/
def oneTimeSchedule : Schedule :=
  { id := 9, name := "Once", obs_instance_id := 1,
    start_time := "09:00", end_time := "10:00", days_of_week := [],
    is_active := true, is_one_time := true, execution_date := some 0 }

/-- `now` for the planner example: Tuesday 1970-01-06, 10:00 IST, as
minutes since epoch UTC (epoch day 5 is a Tuesday). -/
def exampleNow : Int := 5 * 1440 + 600 - istOffset

/-- A timer map holding timers for two other schedule ids. -/
def exampleTimerMap : TimerMap := [(50, [7000]), (60, [7100, 7200])]

/-- A database holding the recurring `mwfSchedule` and its OBS instance. -/
def exampleDb : Db :=
  { schedules := [mwfSchedule],
    obsInstances := [{ id := 1, name := "Main OBS", status := "connected", is_streaming := false }],
    streamEvents := [], notifications := [] }


/-- The spec-facing description of a hit day `d` of the recurring scan:
the weekday of the IST civil day `d` days after `now`'s is in
`days_of_week`, and the candidate instant is strictly after `now`.  For
`0 ≤ t ≤ 1439` this is exactly `searchHit`. -/
def goodRecurringDay (s : Schedule) (now t : Int) (d : Nat) : Prop :=
  weekdayOfDay (dayIST now + d) ∈ s.days_of_week ∧ now < recurringCandidate now t d

instance goodRecurringDayDec (s : Schedule) (now t : Int) (d : Nat) :
    Decidable (goodRecurringDay s now t d) := by
  unfold goodRecurringDay
  infer_instance

/-! ## Counting infrastructure -/

theorem countOcc_append {α : Type} [DecidableEq α] (a : α) (l1 l2 : List α) :
    countOcc a (l1 ++ l2) = countOcc a l1 + countOcc a l2 := by
  induction l1 with
  | nil => simp [countOcc]
  | cons x xs ih => simp [countOcc, ih]; omega

theorem countOcc_eq_zero {α : Type} [DecidableEq α] {a : α} {l : List α} (h : a ∉ l) :
    countOcc a l = 0 := by
  induction l with
  | nil => rfl
  | cons x xs ih =>
    simp only [List.mem_cons, not_or] at h
    have hxa : ¬ x = a := fun he => h.1 he.symm
    simp [countOcc, hxa, ih h.2]

theorem countOcc_eq_one {α : Type} [DecidableEq α] {a : α} {l : List α}
    (hnd : l.Nodup) (ha : a ∈ l) : countOcc a l = 1 := by
  induction l with
  | nil => cases ha
  | cons x xs ih =>
    rw [List.nodup_cons] at hnd
    rcases List.mem_cons.mp ha with h | h
    · subst h; simp [countOcc, countOcc_eq_zero hnd.1]
    · have hxa : ¬ x = a := fun he => hnd.1 (he ▸ h)
      simp [countOcc, hxa, ih hnd.2 h]

theorem countOcc_if_single {α : Type} [DecidableEq α] (c : Prop) [Decidable c] (u v : α) :
    countOcc v (if c then [u] else []) = if c ∧ u = v then 1 else 0 := by
  by_cases hc : c
  · by_cases huv : u = v <;> simp [hc, huv, countOcc]
  · simp [hc, countOcc]

/-! ## Counting conflicts emitted for one ordered pair -/

theorem countOcc_overlap_conflictsFor (x y a b : Schedule) :
    countOcc (Conflict.overlap a b) (conflictsFor x y) =
      if x = a ∧ y = b ∧ overlapEmit a b = true then 1 else 0 := by
  unfold conflictsFor overlapEmit
  by_cases hg : sameTargetSharedDays x y = true
  · simp only [hg, if_true, countOcc_append, countOcc_if_single]
    by_cases hxa : x = a
    · by_cases hyb : y = b
      · subst hxa; subst hyb
        by_cases ho : overlapCondB x y = true <;> simp [hg, ho, countOcc]
      · simp [hyb, Conflict.overlap.injEq, countOcc]
    · simp [hxa, Conflict.overlap.injEq, countOcc]
  · by_cases hxa : x = a
    · by_cases hyb : y = b
      · subst hxa; subst hyb; simp [hg, countOcc]
      · simp [hyb, hg, countOcc]
    · simp [hxa, hg, countOcc]

theorem countOcc_invalid_conflictsFor (x y s : Schedule) :
    countOcc (Conflict.invalidRange s) (conflictsFor x y) = 0 := by
  unfold conflictsFor
  by_cases hg : sameTargetSharedDays x y = true
  · simp only [hg, if_true, countOcc_append, countOcc_if_single]
    simp
  · simp [hg, countOcc]

theorem hasOverlappingDays_comm (a b : Schedule) :
    hasOverlappingDays a b = hasOverlappingDays b a := by
  apply Bool.coe_iff_coe.mp
  unfold hasOverlappingDays
  simp only [List.any_eq_true, List.elem_iff]
  exact ⟨fun ⟨d, h1, h2⟩ => ⟨d, h2, h1⟩, fun ⟨d, h1, h2⟩ => ⟨d, h2, h1⟩⟩

theorem sameTargetSharedDays_comm (a b : Schedule) :
    sameTargetSharedDays a b = sameTargetSharedDays b a := by
  unfold sameTargetSharedDays
  rw [hasOverlappingDays_comm]
  apply Bool.coe_iff_coe.mp
  simp only [Bool.and_eq_true, beq_iff_eq]
  constructor
  · rintro ⟨h1, h2⟩; exact ⟨h1.symm, h2⟩
  · rintro ⟨h1, h2⟩; exact ⟨h1.symm, h2⟩

theorem conflictsFor_eq (x y : Schedule) :
    conflictsFor x y =
      (if overlapEmit x y = true then [Conflict.overlap x y] else []) ++
        ((if breakEmit x y = true then [Conflict.insufficientBreak x y] else []) ++
          (if breakEmit y x = true then [Conflict.insufficientBreak y x] else [])) := by
  unfold conflictsFor overlapEmit breakEmit
  by_cases hg : sameTargetSharedDays x y = true
  · have hg2 : sameTargetSharedDays y x = true := by
      rw [sameTargetSharedDays_comm]; exact hg
    simp [hg, hg2]
  · have hg2 : ¬ sameTargetSharedDays y x = true := by
      rw [sameTargetSharedDays_comm]; exact hg
    simp [hg, hg2]

theorem countOcc_break_conflictsFor (x y a b : Schedule) :
    countOcc (Conflict.insufficientBreak a b) (conflictsFor x y) =
      (if x = a ∧ y = b ∧ breakEmit a b = true then 1 else 0) +
        (if x = b ∧ y = a ∧ breakEmit a b = true then 1 else 0) := by
  rw [conflictsFor_eq, countOcc_append, countOcc_append, countOcc_if_single,
    countOcc_if_single, countOcc_if_single]
  have h1 : (overlapEmit x y = true ∧ Conflict.overlap x y = Conflict.insufficientBreak a b)
      ↔ False := by simp
  have h2 : (breakEmit x y = true ∧ Conflict.insufficientBreak x y = Conflict.insufficientBreak a b)
      ↔ (x = a ∧ y = b ∧ breakEmit a b = true) := by
    simp only [Conflict.insufficientBreak.injEq]
    constructor
    · rintro ⟨hb, hx, hy⟩; subst hx; subst hy; exact ⟨rfl, rfl, hb⟩
    · rintro ⟨hx, hy, hb⟩; subst hx; subst hy; exact ⟨hb, rfl, rfl⟩
  have h3 : (breakEmit y x = true ∧ Conflict.insufficientBreak y x = Conflict.insufficientBreak a b)
      ↔ (x = b ∧ y = a ∧ breakEmit a b = true) := by
    simp only [Conflict.insufficientBreak.injEq]
    constructor
    · rintro ⟨hb, hy, hx⟩; subst hx; subst hy; exact ⟨rfl, rfl, hb⟩
    · rintro ⟨hx, hy, hb⟩; subst hx; subst hy; exact ⟨hb, rfl, rfl⟩
  rw [if_congr h1 rfl rfl, if_congr h2 rfl rfl, if_congr h3 rfl rfl]
  simp

theorem countOcc_if_single_alt {α : Type} [DecidableEq α] (c : Prop) [Decidable c] (u v : α) :
    countOcc v (if c then [] else [u]) = if ¬ c ∧ u = v then 1 else 0 := by
  by_cases hc : c
  · simp [hc, countOcc]
  · by_cases huv : u = v <;> simp [hc, huv, countOcc]

theorem jsGt_eq_jsLt (u v : Option Int) : jsGt u v = jsLt v u := by
  cases u <;> cases v <;> rfl

theorem overlapCondB_comm (a b : Schedule) : overlapCondB a b = overlapCondB b a := by
  unfold overlapCondB
  rw [jsGt_eq_jsLt, jsGt_eq_jsLt, Bool.and_comm]

theorem overlapEmit_comm (a b : Schedule) : overlapEmit a b = overlapEmit b a := by
  unfold overlapEmit
  rw [sameTargetSharedDays_comm, overlapCondB_comm]

/-! ## Counting over the inner loop -/

theorem countOcc_overlap_pairConflicts (x : Schedule) (ys : List Schedule) (a b : Schedule) :
    countOcc (Conflict.overlap a b) (pairConflicts x ys) =
      if x = a ∧ overlapEmit a b = true then countOcc b ys else 0 := by
  induction ys with
  | nil => simp [pairConflicts, countOcc]
  | cons y ys ih =>
    rw [pairConflicts, countOcc_append, countOcc_overlap_conflictsFor, ih]
    by_cases hxa : x = a
    · by_cases he : overlapEmit a b = true
      · simp [hxa, he, countOcc]
      · simp [hxa, he]
    · simp [hxa]

theorem countOcc_break_pairConflicts (x : Schedule) (ys : List Schedule) (a b : Schedule) :
    countOcc (Conflict.insufficientBreak a b) (pairConflicts x ys) =
      (if x = a ∧ breakEmit a b = true then countOcc b ys else 0) +
        (if x = b ∧ breakEmit a b = true then countOcc a ys else 0) := by
  induction ys with
  | nil => simp [pairConflicts, countOcc]
  | cons y ys ih =>
    rw [pairConflicts, countOcc_append, countOcc_break_conflictsFor, ih]
    by_cases hxa : x = a
    · subst hxa
      by_cases hxb : x = b
      · subst hxb
        by_cases he : breakEmit x x = true
        · simp [he, countOcc]; omega
        · simp [he]
      · by_cases he : breakEmit x b = true <;> simp [hxb, he, countOcc]
    · by_cases hxb : x = b
      · subst hxb
        by_cases he : breakEmit a x = true <;> simp [hxa, he, countOcc]
      · simp [hxa, hxb]

theorem countOcc_invalid_pairConflicts (x : Schedule) (ys : List Schedule) (s : Schedule) :
    countOcc (Conflict.invalidRange s) (pairConflicts x ys) = 0 := by
  induction ys with
  | nil => rfl
  | cons y ys ih =>
    rw [pairConflicts, countOcc_append, countOcc_invalid_conflictsFor, ih]

/-! ## Counting over the outer loop -/

theorem countOcc_overlap_validateLoop_zeroL (m : List Schedule) (a b : Schedule)
    (ha : a ∉ m) : countOcc (Conflict.overlap a b) (validateLoop m) = 0 := by
  induction m with
  | nil => rfl
  | cons x rest ih =>
    simp only [List.mem_cons, not_or] at ha
    rw [validateLoop, countOcc_append, countOcc_append, countOcc_if_single_alt,
      countOcc_overlap_pairConflicts, ih ha.2]
    have hxa : ¬ x = a := fun he => ha.1 he.symm
    simp [hxa]

theorem countOcc_overlap_validateLoop_zeroR (m : List Schedule) (a b : Schedule)
    (hb : b ∉ m) : countOcc (Conflict.overlap a b) (validateLoop m) = 0 := by
  induction m with
  | nil => rfl
  | cons x rest ih =>
    simp only [List.mem_cons, not_or] at hb
    rw [validateLoop, countOcc_append, countOcc_append, countOcc_if_single_alt,
      countOcc_overlap_pairConflicts, ih hb.2]
    have hcb : countOcc b rest = 0 := countOcc_eq_zero hb.2
    simp [hcb]

theorem countOcc_break_validateLoop_zeroL (m : List Schedule) (a b : Schedule)
    (ha : a ∉ m) : countOcc (Conflict.insufficientBreak a b) (validateLoop m) = 0 := by
  induction m with
  | nil => rfl
  | cons x rest ih =>
    simp only [List.mem_cons, not_or] at ha
    rw [validateLoop, countOcc_append, countOcc_append, countOcc_if_single_alt,
      countOcc_break_pairConflicts, ih ha.2]
    have hxa : ¬ x = a := fun he => ha.1 he.symm
    have hca : countOcc a rest = 0 := countOcc_eq_zero ha.2
    simp [hxa, hca]

theorem countOcc_break_validateLoop_zeroR (m : List Schedule) (a b : Schedule)
    (hb : b ∉ m) : countOcc (Conflict.insufficientBreak a b) (validateLoop m) = 0 := by
  induction m with
  | nil => rfl
  | cons x rest ih =>
    simp only [List.mem_cons, not_or] at hb
    rw [validateLoop, countOcc_append, countOcc_append, countOcc_if_single_alt,
      countOcc_break_pairConflicts, ih hb.2]
    have hxb : ¬ x = b := fun he => hb.1 he.symm
    have hcb : countOcc b rest = 0 := countOcc_eq_zero hb.2
    simp [hxb, hcb]

theorem countOcc_invalid_validateLoop_zero (m : List Schedule) (s : Schedule)
    (hs : s ∉ m) : countOcc (Conflict.invalidRange s) (validateLoop m) = 0 := by
  induction m with
  | nil => rfl
  | cons x rest ih =>
    simp only [List.mem_cons, not_or] at hs
    rw [validateLoop, countOcc_append, countOcc_append, countOcc_if_single_alt,
      countOcc_invalid_pairConflicts, ih hs.2]
    have hxs : ¬ x = s := fun he => hs.1 he.symm
    simp [hxs]

theorem countOcc_invalid_validateLoop (m : List Schedule) (hnd : m.Nodup) (s : Schedule)
    (hs : s ∈ m) :
    countOcc (Conflict.invalidRange s) (validateLoop m) =
      if jsStrLt s.start_time s.end_time = true then 0 else 1 := by
  induction m with
  | nil => cases hs
  | cons x rest ih =>
    rw [List.nodup_cons] at hnd
    rw [validateLoop, countOcc_append, countOcc_append, countOcc_if_single_alt,
      countOcc_invalid_pairConflicts]
    rcases List.mem_cons.mp hs with h | h
    · subst h
      rw [countOcc_invalid_validateLoop_zero rest s hnd.1]
      by_cases hc : jsStrLt s.start_time s.end_time = true <;> simp [hc]
    · have hxs : ¬ x = s := fun he => hnd.1 (he ▸ h)
      rw [ih hnd.2 h]
      simp [hxs]

theorem countOcc_overlap_validateLoop (m : List Schedule) (hnd : m.Nodup) (a b : Schedule)
    (ha : a ∈ m) (hb : b ∈ m) (hab : a ≠ b) :
    countOcc (Conflict.overlap a b) (validateLoop m) +
      countOcc (Conflict.overlap b a) (validateLoop m) =
      if overlapEmit a b = true then 1 else 0 := by
  induction m with
  | nil => cases ha
  | cons x rest ih =>
    rw [List.nodup_cons] at hnd
    rw [validateLoop, countOcc_append, countOcc_append, countOcc_append, countOcc_append,
      countOcc_if_single_alt, countOcc_if_single_alt, countOcc_overlap_pairConflicts,
      countOcc_overlap_pairConflicts]
    rcases List.mem_cons.mp ha with hax | hax
    · subst hax
      have hbr : b ∈ rest := by
        rcases List.mem_cons.mp hb with hbx | hbx
        · exact absurd hbx.symm hab
        · exact hbx
      have hxb : ¬ a = b := hab
      rw [countOcc_overlap_validateLoop_zeroL rest a b hnd.1,
        countOcc_overlap_validateLoop_zeroR rest b a hnd.1,
        countOcc_eq_one hnd.2 hbr]
      by_cases he : overlapEmit a b = true <;> simp [hxb, he]
    · rcases List.mem_cons.mp hb with hbx | hbx
      · subst hbx
        have har : a ∈ rest := hax
        have hxa : ¬ b = a := fun he => hab he.symm
        rw [countOcc_overlap_validateLoop_zeroR rest a b hnd.1,
          countOcc_overlap_validateLoop_zeroL rest b a hnd.1,
          countOcc_eq_one hnd.2 har]
        rw [overlapEmit_comm a b]
        by_cases he : overlapEmit b a = true <;> simp [hxa, he]
      · have hxa : ¬ x = a := fun he => hnd.1 (he ▸ hax)
        have hxb : ¬ x = b := fun he => hnd.1 (he ▸ hbx)
        simpa [hxa, hxb] using ih hnd.2 hax hbx

theorem countOcc_break_validateLoop (m : List Schedule) (hnd : m.Nodup) (a b : Schedule)
    (ha : a ∈ m) (hb : b ∈ m) (hab : a ≠ b) :
    countOcc (Conflict.insufficientBreak a b) (validateLoop m) =
      if breakEmit a b = true then 1 else 0 := by
  induction m with
  | nil => cases ha
  | cons x rest ih =>
    rw [List.nodup_cons] at hnd
    rw [validateLoop, countOcc_append, countOcc_append, countOcc_if_single_alt,
      countOcc_break_pairConflicts]
    rcases List.mem_cons.mp ha with hax | hax
    · subst hax
      have hbr : b ∈ rest := by
        rcases List.mem_cons.mp hb with hbx | hbx
        · exact absurd hbx.symm hab
        · exact hbx
      have hxb : ¬ a = b := hab
      rw [countOcc_break_validateLoop_zeroL rest a b hnd.1, countOcc_eq_one hnd.2 hbr]
      by_cases he : breakEmit a b = true <;> simp [hxb, he]
    · rcases List.mem_cons.mp hb with hbx | hbx
      · subst hbx
        have har : a ∈ rest := hax
        have hxa : ¬ b = a := fun he => hab he.symm
        rw [countOcc_break_validateLoop_zeroR rest a b hnd.1, countOcc_eq_one hnd.2 har]
        by_cases he : breakEmit a b = true <;> simp [hxa, he]
      · have hxa : ¬ x = a := fun he => hnd.1 (he ▸ hax)
        have hxb : ¬ x = b := fun he => hnd.1 (he ▸ hbx)
        simpa [hxa, hxb] using ih hnd.2 hax hbx

/-! ## Transfer through the sort, and arithmetic bridges -/

theorem sortSchedules_perm (l : List Schedule) : (sortSchedules l).Perm l :=
  List.perm_insertionSort schedLE l

theorem adjEndO_some (e s : Int) : adjEndO (some e) (some s) = some (adjustEnd s e) := by
  unfold adjEndO adjustEnd jsLe jsAdd
  by_cases h : e ≤ s <;> simp [h]

theorem overlapEmit_iff (a b : Schedule) (sa ea sb eb : Int)
    (hsa : parseTimeString a.start_time = some sa)
    (hea : parseTimeString a.end_time = some ea)
    (hsb : parseTimeString b.start_time = some sb)
    (heb : parseTimeString b.end_time = some eb) :
    overlapEmit a b = true ↔
      (a.obs_instance_id = b.obs_instance_id ∧
        (∃ d ∈ a.days_of_week, d ∈ b.days_of_week) ∧
        sa < adjustEnd sb eb ∧ sb < adjustEnd sa ea) := by
  unfold overlapEmit sameTargetSharedDays hasOverlappingDays overlapCondB
  rw [hsa, hea, hsb, heb, adjEndO_some, adjEndO_some]
  simp [jsLt, jsGt, List.any_eq_true, List.elem_iff, and_assoc]

theorem breakEmit_iff (a b : Schedule) (sa ea sb : Int)
    (hsa : parseTimeString a.start_time = some sa)
    (hea : parseTimeString a.end_time = some ea)
    (hsb : parseTimeString b.start_time = some sb) :
    breakEmit a b = true ↔
      (a.obs_instance_id = b.obs_instance_id ∧
        (∃ d ∈ a.days_of_week, d ∈ b.days_of_week) ∧
        adjustEnd sa ea ≤ sb ∧ sb - adjustEnd sa ea < 5) := by
  unfold breakEmit sameTargetSharedDays hasOverlappingDays breakCondB
  rw [hsa, hea, hsb, adjEndO_some]
  simp [jsLe, jsLt, jsSub, List.any_eq_true, List.elem_iff, and_assoc]

/-! ## The recurring scan -/

theorem searchDays_eq_none_iff (s : Schedule) (now t : Int) (fuel d : Nat) :
    searchDays s now t d fuel = none ↔
      ∀ k : Nat, k < fuel → ¬ searchHit s now t (d + k) := by
  induction fuel generalizing d with
  | zero => simp [searchDays]
  | succ fuel ih =>
    rw [searchDays]
    by_cases hh : searchHit s now t d
    · simp only [hh, if_true]
      constructor
      · intro h; cases h
      · intro h
        exact absurd hh (by simpa using h 0 (Nat.succ_pos fuel))
    · simp only [hh, if_false]
      rw [ih (d + 1)]
      constructor
      · intro h k hk
        cases k with
        | zero => simpa using hh
        | succ j =>
          have he : d + (j + 1) = (d + 1) + j := by omega
          rw [he]
          exact h j (Nat.lt_of_succ_lt_succ hk)
      · intro h k hk
        have he : (d + 1) + k = d + (k + 1) := by omega
        rw [he]
        exact h (k + 1) (Nat.succ_lt_succ hk)

theorem searchDays_eq_some (s : Schedule) (now t : Int) (fuel d : Nat) (r : Int)
    (h : searchDays s now t d fuel = some r) :
    ∃ k : Nat, k < fuel ∧ searchHit s now t (d + k) ∧
      r = recurringCandidate now t (d + k) ∧
      ∀ j : Nat, j < k → ¬ searchHit s now t (d + j) := by
  induction fuel generalizing d with
  | zero => cases h
  | succ fuel ih =>
    rw [searchDays] at h
    by_cases hh : searchHit s now t d
    · rw [if_pos hh] at h
      refine ⟨0, Nat.succ_pos fuel, by simpa using hh, ?_, ?_⟩
      · simpa using (Option.some.injEq _ _ ▸ h).symm
      · intro j hj; omega
    · rw [if_neg hh] at h
      obtain ⟨k, hk, hhit, hr, hmin⟩ := ih (d + 1) h
      have he : d + (k + 1) = (d + 1) + k := by omega
      refine ⟨k + 1, Nat.succ_lt_succ hk, by rw [he]; exact hhit, by rw [he]; exact hr, ?_⟩
      intro j hj
      cases j with
      | zero => simpa using hh
      | succ i =>
        have he2 : d + (i + 1) = (d + 1) + i := by omega
        rw [he2]
        exact hmin i (by omega)

theorem recurringCandidate_mono (now t : Int) {d1 d2 : Nat} (h : d1 ≤ d2) :
    recurringCandidate now t d1 ≤ recurringCandidate now t d2 := by
  unfold recurringCandidate istOffset
  have hc : (d1 : Int) ≤ (d2 : Int) := by exact_mod_cast h
  have hmul : (dayIST now + d1) * 1440 ≤ (dayIST now + d2) * 1440 := by
    apply mul_le_mul_of_nonneg_right _ (by norm_num)
    omega
  omega

theorem searchHit_iff_good (s : Schedule) (now t : Int) (d : Nat)
    (ht0 : 0 ≤ t) (ht1 : t ≤ 1439) :
    searchHit s now t d ↔ goodRecurringDay s now t d := by
  unfold searchHit goodRecurringDay
  have h1 : (dayIST now + ↑d) * 1440 + t = t + 1440 * (dayIST now + ↑d) := by ring
  have hdiv : ((dayIST now + ↑d) * 1440 + t) / 1440 = dayIST now + ↑d := by
    rw [h1, Int.add_mul_ediv_left t (dayIST now + (d : Int)) (by norm_num : (1440 : Int) ≠ 0)]
    have h2 : t / 1440 = 0 := Int.ediv_eq_zero_of_lt ht0 (by omega)
    rw [h2, zero_add]
  rw [hdiv]

/-! ## Exhaustive evaluation of the parser on regex-shaped strings -/

set_option maxHeartbeats 1600000 in
theorem timeParseAgrees_shape4 :
    ∀ h ∈ digitChars, ∀ m1 ∈ minuteTensChars, ∀ m2 ∈ digitChars,
      timeParseAgrees (String.mk [h, ':', m1, m2]) = true := by decide

set_option maxHeartbeats 3200000 in
theorem timeParseAgrees_shape5a :
    ∀ h1 ∈ hourLeadChars, ∀ h2 ∈ digitChars, ∀ m1 ∈ minuteTensChars, ∀ m2 ∈ digitChars,
      timeParseAgrees (String.mk [h1, h2, ':', m1, m2]) = true := by decide

set_option maxHeartbeats 1600000 in
theorem timeParseAgrees_shape5b :
    ∀ h2 ∈ hourAfterTwoChars, ∀ m1 ∈ minuteTensChars, ∀ m2 ∈ digitChars,
      timeParseAgrees (String.mk ['2', h2, ':', m1, m2]) = true := by decide

theorem timeParseAgrees_spec {s : String} (h : timeParseAgrees s = true) :
    ∃ v : Int, parseTimeString s = some v ∧ specMinutesOfTime s = some v ∧
      0 ≤ v ∧ v ≤ 1439 := by
  unfold timeParseAgrees at h
  cases hp : parseTimeString s with
  | none => rw [hp] at h; cases h
  | some v =>
    cases hq : specMinutesOfTime s with
    | none => rw [hp, hq] at h; cases h
    | some w =>
      rw [hp, hq] at h
      simp only [Bool.and_eq_true, beq_iff_eq, decide_eq_true_eq] at h
      obtain ⟨⟨hvw, h0⟩, h1⟩ := h
      exact ⟨v, rfl, by rw [hvw], h0, h1⟩

/-! ## Timer-map lemmas -/

theorem mapLookup_delete_self (st : TimerMap) (id : Int) :
    mapLookup (mapDelete st id) id = none := by
  induction st with
  | nil => rfl
  | cons p st ih =>
    by_cases hp : p.1 = id
    · have hb : (p.1 != id) = false := by simp [hp]
      simp only [mapDelete, List.filter_cons, hb, Bool.false_eq_true, if_false]
      exact ih
    · have hb : (p.1 != id) = true := by simp [hp]
      have hb2 : (p.1 == id) = false := by simp [hp]
      simp only [mapDelete, mapLookup, List.filter_cons, List.find?, hb, hb2, if_true]
      exact ih

theorem mapLookup_delete_other (st : TimerMap) (id id2 : Int) (h : id2 ≠ id) :
    mapLookup (mapDelete st id) id2 = mapLookup st id2 := by
  induction st with
  | nil => rfl
  | cons p st ih =>
    by_cases hp : p.1 = id
    · have hp2 : (p.1 == id2) = false := by
        simp only [beq_eq_false_iff_ne]
        exact fun he => h (he ▸ hp)
      have hb : (p.1 != id) = false := by simp [hp]
      simpa [mapDelete, mapLookup, List.filter_cons, List.find?, hb, hp2] using ih
    · have hb : (p.1 != id) = true := by simp [hp]
      by_cases hp2 : p.1 = id2
      · have hb2 : (p.1 == id2) = true := by simp [hp2]
        simp [mapDelete, mapLookup, List.filter_cons, List.find?, hb, hb2]
      · have hb2 : (p.1 == id2) = false := by simp [hp2]
        simpa [mapDelete, mapLookup, List.filter_cons, List.find?, hb, hb2] using ih

/-! ## Claim theorems -/

/-- C9 (amended): for every time string matching the schema regex
`^([0-1]?[0-9]|2[0-3]):[0-5][0-9]$`, `parseTimeString` returns exactly the
minutes-since-midnight the string denotes, an integer in `[0, 1439]`.
(The failure half of the claim is corrected: malformed strings are kept
out by the schema regex at the input boundary; `parseTimeString` itself
performs no validation and can return an out-of-range number — see the
counterexample.) -/
theorem c9_parse_of_regex (s : String) (h : timeRegexMatch s = true) :
    ∃ v : Int, parseTimeString s = some v ∧ specMinutesOfTime s = some v ∧
      0 ≤ v ∧ v ≤ 1439 := by
  obtain ⟨l⟩ := s
  rcases l with _ | ⟨a, _ | ⟨b, _ | ⟨c, _ | ⟨d, _ | ⟨e, _ | ⟨f, rest⟩⟩⟩⟩⟩⟩ <;>
    simp only [timeRegexMatch, Bool.and_eq_true, Bool.or_eq_true, beq_iff_eq,
      List.elem_iff, Bool.false_eq_true] at h
  · -- four characters: h:mm
    obtain ⟨⟨⟨hcolon, ha⟩, hc⟩, hd⟩ := h
    subst hcolon
    exact timeParseAgrees_spec (timeParseAgrees_shape4 a ha c hc d hd)
  · -- five characters: hh:mm
    obtain ⟨⟨⟨hcolon, hhour⟩, hd⟩, he⟩ := h
    subst hcolon
    rcases hhour with ⟨ha, hb⟩ | ⟨ha, hb⟩
    · exact timeParseAgrees_spec (timeParseAgrees_shape5a a ha b hb d hd e he)
    · subst ha
      exact timeParseAgrees_spec (timeParseAgrees_shape5b b hb d hd e he)

/-- C9 witness: the regex-valid string `"09:30"`. -/
theorem c9_parse_of_regex_witness :
    ∃ v : Int, parseTimeString "09:30" = some v ∧ specMinutesOfTime "09:30" = some v ∧
      0 ≤ v ∧ v ≤ 1439 :=
  c9_parse_of_regex "09:30" (by decide)

/-- C9 counterexample: `"25:00"` does not match the regex, yet
`parseTimeString` returns the number `1500` instead of failing — the
claimed `FormatError` failure of `toMinutesSinceMidnight` does not exist
in `parseTimeString`; only the schema regex rejects malformed times. -/
theorem c9_counterexample :
    timeRegexMatch "25:00" = false ∧ parseTimeString "25:00" = some 1500 := by
  decide

/-- C1 (amended): the validator's invalid-range conflict for a schedule is
reported exactly when `start_time >= end_time` holds as a JavaScript
*string* comparison — i.e. unless `start_time` is lexicographically before
`end_time`.  Equality is flagged as the claim says, but a numerically
overnight window (end before start, zero-padded) is flagged too. -/
theorem c1_invalid_range_lexicographic (l : List Schedule) (hnd : l.Nodup)
    (s : Schedule) (hs : s ∈ l) :
    countOcc (Conflict.invalidRange s) (validateScheduleConflicts l) =
      if jsStrLt s.start_time s.end_time = true then 0 else 1 := by
  unfold validateScheduleConflicts
  exact countOcc_invalid_validateLoop _ ((sortSchedules_perm l).nodup_iff.mpr hnd) s
    ((sortSchedules_perm l).mem_iff.mpr hs)

/-- C1 witness: the overnight schedule `15:00`–`14:00` is flagged. -/
theorem c1_invalid_range_lexicographic_witness :
    countOcc (Conflict.invalidRange overnightSchedule)
      (validateScheduleConflicts [overnightSchedule]) = 1 :=
  (c1_invalid_range_lexicographic [overnightSchedule] (by decide) overnightSchedule
    (by decide)).trans (by decide)

/-- C1 counterexample: the overnight schedule `15:00`–`14:00` has
`start_time ≠ end_time` and its end is numerically *before* its start
(840 < 900 minutes), yet `validateScheduleConflicts` reports an invalid
time range for it — refuting "only exact equality is invalid" and "an
overnight window is never reported". -/
theorem c1_counterexample :
    overnightSchedule.start_time ≠ overnightSchedule.end_time ∧
      parseTimeString overnightSchedule.start_time = some 900 ∧
      parseTimeString overnightSchedule.end_time = some 840 ∧
      countOcc (Conflict.invalidRange overnightSchedule)
        (validateScheduleConflicts [overnightSchedule]) = 1 := by
  decide

/-- C10: the invalid-range check compares the time strings
lexicographically: the schedule `9:00`–`10:00` — both times accepted by
the input regex, numerically a forward window (540 < 600) — is reported
as an invalid time range because `"9:00" >= "10:00"` as strings. -/
theorem c10_lexicographic_comparison :
    timeRegexMatch lexSchedule.start_time = true ∧
      timeRegexMatch lexSchedule.end_time = true ∧
      parseTimeString lexSchedule.start_time = some 540 ∧
      parseTimeString lexSchedule.end_time = some 600 ∧
      countOcc (Conflict.invalidRange lexSchedule)
        (validateScheduleConflicts [lexSchedule]) = 1 := by
  decide

/-- C8: `calculateNextExecution` is a deterministic function of the
schedule and the injected clock value: identical inputs give identical
results. -/
theorem c8_next_execution_deterministic (s1 s2 : Schedule) (n1 n2 : Int)
    (hs : s1 = s2) (hn : n1 = n2) :
    calculateNextExecution s1 n1 = calculateNextExecution s2 n2 := by
  rw [hs, hn]

/-- C8 witness. -/
theorem c8_next_execution_deterministic_witness :
    calculateNextExecution mwfSchedule exampleNow =
      calculateNextExecution mwfSchedule exampleNow :=
  c8_next_execution_deterministic mwfSchedule mwfSchedule exampleNow exampleNow rfl rfl

/-- C4: for distinct schedules `a`, `b` in a duplicate-free input, an
overlap conflict naming the two (in either orientation, once per
unordered pair) is reported exactly when they share the OBS instance,
their weekday sets intersect, and — with each end minute adjusted by
`+1440` when `end <= start` — `startA < endB_adj` and `endA_adj > startB`.
Different targets or disjoint weekday sets give no overlap conflict. -/
theorem c4_overlap_reported_iff (l : List Schedule) (hnd : l.Nodup) (a b : Schedule)
    (ha : a ∈ l) (hb : b ∈ l) (hab : a ≠ b) (sa ea sb eb : Int)
    (hsa : parseTimeString a.start_time = some sa)
    (hea : parseTimeString a.end_time = some ea)
    (hsb : parseTimeString b.start_time = some sb)
    (heb : parseTimeString b.end_time = some eb) :
    countOcc (Conflict.overlap a b) (validateScheduleConflicts l) +
      countOcc (Conflict.overlap b a) (validateScheduleConflicts l) =
      if a.obs_instance_id = b.obs_instance_id ∧
          (∃ d ∈ a.days_of_week, d ∈ b.days_of_week) ∧
          sa < adjustEnd sb eb ∧ sb < adjustEnd sa ea
        then 1 else 0 := by
  unfold validateScheduleConflicts
  rw [countOcc_overlap_validateLoop _ ((sortSchedules_perm l).nodup_iff.mpr hnd) a b
    ((sortSchedules_perm l).mem_iff.mpr ha) ((sortSchedules_perm l).mem_iff.mpr hb) hab]
  rw [if_congr (overlapEmit_iff a b sa ea sb eb hsa hea hsb heb) rfl rfl]

/-- C4 witness: the spec §8 pair `09:00`–`11:00` and `10:30`–`12:00`,
same target, same Monday: exactly one overlap conflict. -/
theorem c4_overlap_reported_iff_witness :
    countOcc (Conflict.overlap overlapSchedA overlapSchedB)
        (validateScheduleConflicts [overlapSchedA, overlapSchedB]) +
      countOcc (Conflict.overlap overlapSchedB overlapSchedA)
        (validateScheduleConflicts [overlapSchedA, overlapSchedB]) = 1 :=
  (c4_overlap_reported_iff [overlapSchedA, overlapSchedB] (by decide)
    overlapSchedA overlapSchedB (by decide) (by decide) (by decide)
    540 660 630 720 (by decide) (by decide) (by decide) (by decide)).trans (by decide)

/-- C5: for distinct same-target schedules `a`, `b` with intersecting
weekday sets in a duplicate-free input, an insufficient-break conflict in
the direction "`a` ends, `b` starts" is reported exactly when `a`'s
overnight-adjusted end is at or before `b`'s start and the gap is under 5
minutes; the condition carries no overlap test (independence) and the
theorem applies to both orientations of the pair.  A gap of 5 minutes or
more gives no break conflict. -/
theorem c5_break_reported_iff (l : List Schedule) (hnd : l.Nodup) (a b : Schedule)
    (ha : a ∈ l) (hb : b ∈ l) (hab : a ≠ b) (sa ea sb : Int)
    (hsa : parseTimeString a.start_time = some sa)
    (hea : parseTimeString a.end_time = some ea)
    (hsb : parseTimeString b.start_time = some sb) :
    countOcc (Conflict.insufficientBreak a b) (validateScheduleConflicts l) =
      if a.obs_instance_id = b.obs_instance_id ∧
          (∃ d ∈ a.days_of_week, d ∈ b.days_of_week) ∧
          adjustEnd sa ea ≤ sb ∧ sb - adjustEnd sa ea < 5
        then 1 else 0 := by
  unfold validateScheduleConflicts
  rw [countOcc_break_validateLoop _ ((sortSchedules_perm l).nodup_iff.mpr hnd) a b
    ((sortSchedules_perm l).mem_iff.mpr ha) ((sortSchedules_perm l).mem_iff.mpr hb) hab]
  rw [if_congr (breakEmit_iff a b sa ea sb hsa hea hsb) rfl rfl]

/-- C5 witness: the spec §8 pair `09:00`–`10:00` and `10:02`–`11:00`
(gap 2 minutes): exactly one break conflict, oriented `Early`-ends,
`Late`-starts. -/
theorem c5_break_reported_iff_witness :
    countOcc (Conflict.insufficientBreak breakSchedA breakSchedB)
      (validateScheduleConflicts [breakSchedA, breakSchedB]) = 1 :=
  (c5_break_reported_iff [breakSchedA, breakSchedB] (by decide)
    breakSchedA breakSchedB (by decide) (by decide) (by decide)
    540 600 602 (by decide) (by decide) (by decide)).trans (by decide)

/-- C2: for a recurring schedule (`is_one_time = false`) with a parseable
start time `t ∈ [0, 1439]`: an empty weekday set yields `none`; the result
is `none` exactly when no civil day in `now .. now+14` (IST, +5:30) both
falls on a listed weekday and starts strictly after `now`; and a returned
instant is such a candidate and is the earliest one. -/
theorem c2_next_execution_recurring (s : Schedule) (now t : Int)
    (hone : s.is_one_time = false)
    (ht : parseTimeString s.start_time = some t) (ht0 : 0 ≤ t) (ht1 : t ≤ 1439) :
    (s.days_of_week = [] → calculateNextExecution s now = none) ∧
      (calculateNextExecution s now = none ↔
        ∀ d : Nat, d ≤ 14 → ¬ goodRecurringDay s now t d) ∧
      (∀ r : Int, calculateNextExecution s now = some r →
        (∃ d : Nat, d ≤ 14 ∧ goodRecurringDay s now t d ∧ r = recurringCandidate now t d) ∧
          ∀ d : Nat, d ≤ 14 → goodRecurringDay s now t d → r ≤ recurringCandidate now t d) := by
  have hmain : calculateNextExecution s now =
      (if s.days_of_week = [] then none else searchDays s now t 0 15) := by
    unfold calculateNextExecution
    rw [hone, ht]
  have hbridge : ∀ d : Nat, searchHit s now t d ↔ goodRecurringDay s now t d :=
    fun d => searchHit_iff_good s now t d ht0 ht1
  refine ⟨fun hdays => by rw [hmain, if_pos hdays], ?_, ?_⟩
  · by_cases hdays : s.days_of_week = []
    · rw [hmain, if_pos hdays]
      constructor
      · intro _ d _
        unfold goodRecurringDay
        rw [hdays]
        rintro ⟨hmem, _⟩
        cases hmem
      · intro _; rfl
    · rw [hmain, if_neg hdays, searchDays_eq_none_iff]
      constructor
      · intro h d hd
        have h2 := h d (by omega)
        rw [Nat.zero_add] at h2
        exact fun hg => h2 ((hbridge d).mpr hg)
      · intro h k hk
        rw [Nat.zero_add]
        exact fun hh => h k (by omega) ((hbridge k).mp hh)
  · intro r hr
    rw [hmain] at hr
    by_cases hdays : s.days_of_week = []
    · rw [if_pos hdays] at hr; cases hr
    · rw [if_neg hdays] at hr
      obtain ⟨k, hk, hhit, hreq, hmin⟩ := searchDays_eq_some s now t 15 0 r hr
      rw [Nat.zero_add] at hhit hreq
      refine ⟨⟨k, by omega, (hbridge k).mp hhit, hreq⟩, ?_⟩
      intro d hd hg
      by_cases hdk : d < k
      · exact absurd ((hbridge d).mpr hg) (by simpa using hmin d hdk)
      · rw [hreq]
        exact recurringCandidate_mono now t (by omega)

/-- C2 witness: the spec §8 example — Mon/Wed/Fri at `09:00`, `now` a
Tuesday 10:00 IST — fires next Wednesday 09:00 IST (minute 8850), a
candidate of the scan. -/
theorem c2_next_execution_recurring_witness :
    ∃ d : Nat, d ≤ 14 ∧ goodRecurringDay mwfSchedule exampleNow 540 d ∧
      (8850 : Int) = recurringCandidate exampleNow 540 d :=
  ((c2_next_execution_recurring mwfSchedule exampleNow 540 rfl (by decide) (by decide)
    (by decide)).2.2 8850 (by decide)).1

/-- C3: for a one-time schedule with a non-null `execution_date` and a
parseable start time, the planner returns the instant combining the date's
IST civil day with `start_time` (+5:30 offset) when that instant is
strictly after `now`, else `none`; in particular, once `now` is a full day
past `execution_date` the result is `none` for every valid start time. -/
theorem c3_next_execution_one_time (s : Schedule) (now d t : Int)
    (hone : s.is_one_time = true) (hdate : s.execution_date = some d)
    (ht : parseTimeString s.start_time = some t) :
    calculateNextExecution s now =
        (if now < oneTimeInstant d t then some (oneTimeInstant d t) else none) ∧
      (t ≤ 1439 → d + 1440 ≤ now → calculateNextExecution s now = none) := by
  have hmain : calculateNextExecution s now =
      (if now < oneTimeInstant d t then some (oneTimeInstant d t) else none) := by
    unfold calculateNextExecution
    rw [hone, hdate, ht]
  refine ⟨hmain, fun ht1 hpast => ?_⟩
  have hlt : ¬ now < oneTimeInstant d t := by
    unfold oneTimeInstant istOffset
    omega
  rw [hmain, if_neg hlt]

/-- C3 witness: the epoch-dated one-time schedule, `now` far in the
future: `none` — an expired one-time schedule never re-fires. -/
theorem c3_next_execution_one_time_witness :
    calculateNextExecution oneTimeSchedule 10000 = none :=
  (c3_next_execution_one_time oneTimeSchedule 10000 0 540 rfl rfl (by decide)).2
    (by decide) (by decide)

/-- C6: when the planner finds no valid next execution time for a
schedule (for example a recurring schedule with an empty weekday set),
`scheduleStream` returns the `"No valid next execution time found"`
failure instead of succeeding, the timer map afterwards holds no entry
for that schedule id, and the entries of every other id are unchanged. -/
theorem c6_arm_no_valid_time (st : TimerMap) (s : Schedule) (now : Int)
    (h : calculateNextExecution s now = none) :
    (scheduleStream st s now).2 =
        { success := false, error := some "No valid next execution time found" } ∧
      mapLookup (scheduleStream st s now).1 s.id = none ∧
      ∀ id2 : Int, id2 ≠ s.id →
        mapLookup (scheduleStream st s now).1 id2 = mapLookup st id2 := by
  have hstep : scheduleStream st s now =
      (unscheduleStream st s.id,
        { success := false, error := some "No valid next execution time found" }) := by
    unfold scheduleStream
    rw [h]
  refine ⟨by rw [hstep], ?_, ?_⟩
  · rw [hstep]
    exact mapLookup_delete_self st s.id
  · intro id2 hne
    rw [hstep]
    exact mapLookup_delete_other st s.id id2 hne

/-- C6 witness: arming the empty-weekday schedule (id 7) against a map
holding timers for ids 50 and 60 fails and leaves id 50's timers
untouched. -/
theorem c6_arm_no_valid_time_witness :
    (scheduleStream exampleTimerMap emptyDaysSchedule 0).2.success = false ∧
      mapLookup (scheduleStream exampleTimerMap emptyDaysSchedule 0).1 7 = none ∧
      mapLookup (scheduleStream exampleTimerMap emptyDaysSchedule 0).1 50 = some [7000] := by
  have h := c6_arm_no_valid_time exampleTimerMap emptyDaysSchedule 0 (by decide)
  exact ⟨by rw [h.1], h.2.1, (h.2.2 50 (by decide)).trans (by decide)⟩

/-- C7: re-arming happens only at start fire and only for recurring
schedules: `executeScheduledStart` leaves the timer map exactly as
`scheduleStream` (arm) rebuilds it when the fired schedule is found and
recurring, and leaves it untouched when the schedule is one-time or the
lookup fails; `executeScheduledStop` never changes the timer map. -/
theorem c7_rearm_only_recurring_start (db : Db) (st : TimerMap) (sid : Int) (now : Int) :
    (∀ sch obs, joinScheduleObs db sid = some (sch, obs) → sch.is_one_time = false →
        (executeScheduledStart db st sid now).2 = (scheduleStream st sch now).1) ∧
      (∀ sch obs, joinScheduleObs db sid = some (sch, obs) → sch.is_one_time = true →
        (executeScheduledStart db st sid now).2 = st) ∧
      (joinScheduleObs db sid = none → (executeScheduledStart db st sid now).2 = st) ∧
      (executeScheduledStop db st sid now).2 = st := by
  refine ⟨?_, ?_, ?_, ?_⟩
  · intro sch obs hj hone
    unfold executeScheduledStart
    rw [hj]
    simp [hone]
  · intro sch obs hj hone
    unfold executeScheduledStart
    rw [hj]
    simp [hone]
  · intro hj
    unfold executeScheduledStart
    rw [hj]
  · unfold executeScheduledStop
    cases hj : joinScheduleObs db sid with
    | none => rfl
    | some p => rfl

/-- C7 witness: firing the recurring schedule id 8 re-arms it (the timer
map becomes what arm builds), and the stop fire leaves the map alone. -/
theorem c7_rearm_only_recurring_start_witness :
    (executeScheduledStop exampleDb exampleTimerMap 8 0).2 = exampleTimerMap ∧
      (executeScheduledStart exampleDb exampleTimerMap 8 0).2 =
        (scheduleStream exampleTimerMap mwfSchedule 0).1 := by
  have h := c7_rearm_only_recurring_start exampleDb exampleTimerMap 8 0
  exact ⟨h.2.2.2, h.1 mwfSchedule
    { id := 1, name := "Main OBS", status := "connected", is_streaming := false }
    (by decide) rfl⟩
